import Mathlib

/-! Shallow embedding of the program-searcher repository (program_model.py,
mutation_strategy.py, evolution_operator.py, program_search.py) together with
proofs about its specification claims.

Modelling conventions.  Python values flowing through Statement.args and
Statement.func in this codebase are strings, numeric literals, None, or flat
lists of strings/numeric literals; list nesting never occurs, so list elements
are modelled as atoms.  Numeric literals are modelled as integers (only their
equality and printing are ever used).  RNG draws (random.randrange,
random.choices) are modelled as explicit parameters of the functions that
consume them.  Exceptions are modelled with Except.  The sha256 digest in
Program.to_hash is a fixed deterministic function of str(canonical_repr), so
digest equality follows from equality of the canonical representation; to_hash
is therefore modelled as returning the canonical representation itself (every
verified statement only uses the equal-input-implies-equal-digest direction). -/

/-- Atomic Python values appearing in this codebase: strings, numeric
literals, and None. -/
inductive PyAtom where
  | astr : String → PyAtom
  | anum : Int → PyAtom
  | anone : PyAtom
deriving DecidableEq

/-- A Python value as used for Statement.args and Statement.func: an atom or a
flat list of atoms. -/
inductive PyVal where
  | atom : PyAtom → PyVal
  | plist : List PyAtom → PyVal
deriving DecidableEq

/-- Python len() on the values used here (len of a number or None would raise
TypeError in Python; that case is unreachable in the verified statements). -/
def pyLen : PyVal → Nat
  | .atom (.astr s) => s.length
  | .atom _ => 0
  | .plist l => l.length

/-- Python iteration over a value: a string iterates over its characters, a
list over its elements (iterating a number or None would raise TypeError in
Python; unreachable here). -/
def pyIterate : PyVal → List PyAtom
  | .atom (.astr s) => s.data.map (fun c => PyAtom.astr (String.mk [c]))
  | .atom _ => []
  | .plist l => l

/-- An apostrophe character, used by the Python repr of strings. -/
def quoteStr : String := String.mk [Char.ofNat 39]

/-- Python str() of an atom. -/
def atomStr : PyAtom → String
  | .astr s => s
  | .anum n => toString n
  | .anone => "None"

/-- Python repr() of an atom (strings are quoted). -/
def atomRepr : PyAtom → String
  | .astr s => quoteStr ++ s ++ quoteStr
  | .anum n => toString n
  | .anone => "None"

/-- Join a list of strings with a separator, as Python str.join. -/
def joinSep (sep : String) : List String → String
  | [] => ""
  | [a] => a
  | a :: b :: rest => a ++ sep ++ joinSep sep (b :: rest)

/-- Python str() of a value (str of a list is the bracketed repr of its
elements). -/
def pyStrOf : PyVal → String
  | .atom a => atomStr a
  | .plist l => "[" ++ joinSep ", " (l.map atomRepr) ++ "]"

/-- Whether the character list t occurs contiguously inside s (Python
substring containment for the in operator on strings). -/
def strHasSub (hay : String) (needle : String) : Bool :=
  (List.range (hay.length + 1)).any fun i =>
    decide ((hay.data.drop i).take needle.length = needle.data)

/-- Python membership a in container for the containers used here.  For a
list this is element equality; for a string with a string element it is
substring containment.  (Python raises TypeError for a non-string element
tested against a string; unreachable in the verified statements.) -/
def pyContains (container : PyVal) (a : PyAtom) : Bool :=
  match container with
  | .plist l => decide (a ∈ l)
  | .atom (.astr s) =>
    match a with
    | .astr t => strHasSub s t
    | _ => false
  | .atom _ => false

/-- list.insert at a nonnegative clamped position: past-the-end inserts append. -/
def listInsertAt : List α → Nat → α → List α
  | l, 0, x => x :: l
  | [], _ + 1, x => [x]
  | a :: t, n + 1, x => a :: listInsertAt t n x

/-- Python list.insert(i, x): negative indices count from the end, out of
range indices are clamped. -/
def pyListInsert (l : List α) (i : Int) (x : α) : List α :=
  let eff : Int := if i < 0 then max 0 ((l.length : Int) + i) else min i (l.length : Int)
  listInsertAt l eff.toNat x

/-- Python slice l[start:]: a negative start counts from the end and is
clamped at 0, a nonnegative start is clamped at len. -/
def pySliceFrom (l : List α) (start : Int) : List α :=
  let eff : Int := if start < 0 then max 0 ((l.length : Int) + start) else min start (l.length : Int)
  l.drop eff.toNat

/-- Apply a function to the element at the given position, if any. -/
def listModifyAt : List α → Nat → (α → α) → List α
  | [], _, _ => []
  | a :: t, 0, f => f a :: t
  | a :: t, n + 1, f => a :: listModifyAt t n f

/-- Remove the first occurrence of an element from a list of strings, as
Python list.remove (the absent case, ValueError, is handled by the caller). -/
def eraseFirstStr : List String → String → List String
  | [], _ => []
  | a :: rest, v => if a = v then rest else a :: eraseFirstStr rest v

/-- One instruction of a program: a function name plus ordered argument
references, producing one named result variable (program_model.py,
class Statement).  result_var_name is None until the statement is inserted. -/
structure Statement where
  result_var_name : Option String
  args : PyVal
  func : PyVal
deriving DecidableEq

/-- Statement equality as defined by the source: func and args only, the
result variable name is excluded (program_model.py Statement eq). -/
def stmtPyEq (a b : Statement) : Bool :=
  decide (a.func = b.func) && decide (a.args = b.args)

/-- Remove the first statement equal (by stmtPyEq) to the target, as
Python list.remove with the Statement equality of the source. -/
def removeFirstStmtEq : List Statement → Statement → List Statement
  | [], _ => []
  | s :: rest, t => if stmtPyEq s t then rest else s :: removeFirstStmtEq rest t

/-- Statement.to_code (program_model.py lines 26-39).  The one-argument case
interpolates args[0] directly; the multi-argument case joins str() of the
iterated arguments. -/
def Statement.to_code (s : Statement) : String :=
  let rv := match s.result_var_name with
    | some v => v
    | none => "None"
  if pyLen s.args = 0 then rv ++ "=" ++ pyStrOf s.func ++ "()"
  else
    let args_str :=
      if pyLen s.args = 1 then
        match pyIterate s.args with
        | a :: _ => atomStr a
        | [] => ""
      else joinSep ", " ((pyIterate s.args).map atomStr)
    if s.func = .atom (.astr "const") then rv ++ "=" ++ args_str
    else if s.func = .atom (.astr "return") then "return " ++ args_str
    else rv ++ "=" ++ pyStrOf s.func ++ "(" ++ args_str ++ ")"

/-- The Program state (program_model.py, class Program).  The fields
_variables and _statements keep the attribute names of the Python class; reutrn_vars_count keeps the misspelt name of
the source. -/
structure Program where
  program_name : String
  program_arg_names : List String
  reutrn_vars_count : Int
  _variables : List String
  _statements : List Statement
  last_variable_index : Nat
  has_return_statement : Bool
deriving DecidableEq

/-- Program construction (program_model.py lines 59-72). -/
def Program.init (program_name : String) (program_arg_names : List String)
    (return_vars_count : Int := 1) : Program :=
  { program_name := program_name
    program_arg_names := program_arg_names
    reutrn_vars_count := return_vars_count
    _variables := program_arg_names
    _statements := []
    last_variable_index := 1
    has_return_statement := false }

/-- Program.insert_statement (program_model.py lines 74-87): unconditionally
allocates the next variable name x&lt;counter&gt;, sets it as the result
variable of the statement, appends it to variables, sets the return flag if
func is the return keyword, then appends (index = -1) or inserts. -/
def Program.insert_statement (p : Program) (statement : Statement)
    (index : Int := -1) : Program :=
  let variable_name := "x" ++ toString p.last_variable_index
  let statement := { statement with result_var_name := some variable_name }
  let stmts :=
    if index = -1 then p._statements ++ [statement]
    else pyListInsert p._statements index statement
  { p with
    _statements := stmts
    _variables := p._variables ++ [variable_name]
    last_variable_index := p.last_variable_index + 1
    has_return_statement :=
      p.has_return_statement || decide (statement.func = .atom (.astr "return")) }

/-- The exception classes raised by the embedded operations
(exceptions.py; valueError, indexError and keyError model the Python
builtins raised by list.remove, deque.popleft and dict.pop). -/
inductive PyErr where
  | removeStatementError
  | invalidStatementIndexError
  | valueError
  | indexError
  | keyError
  | invalidMutationStrategiesError
  | invalidProgramSearchArgumentValueError
deriving DecidableEq

instance {e : Type} {a : Type} [DecidableEq e] [DecidableEq a] :
    DecidableEq (Except e a) := fun x y =>
  match x, y with
  | .error u, .error w =>
    if h : u = w then isTrue (by rw [h]) else isFalse (by intro hc; cases hc; exact h rfl)
  | .ok u, .ok w =>
    if h : u = w then isTrue (by rw [h]) else isFalse (by intro hc; cases hc; exact h rfl)
  | .error _, .ok _ => isFalse (by intro hc; cases hc)
  | .ok _, .error _ => isFalse (by intro hc; cases hc)

/-- The dictionary key under which a result variable is looked up in to_hash
and the membership probe used by remove_statement: the stored string, or
None when the result variable was never set. -/
def rvKey (s : Statement) : PyAtom :=
  match s.result_var_name with
  | some v => .astr v
  | none => .anone

/-- Program.remove_statement (program_model.py lines 89-105).  An empty
program raises RemoveStatementError; a bad index raises
InvalidStatementIndexError (program_model.py lines 247-252); a result
variable still referenced by any statement (the target itself included)
raises RemoveStatementError; otherwise list.remove removes the first
statement equal by (func, args) to the target and the result variable of the
target is removed from variables.  When the result variable is absent from
variables, Python list.remove raises ValueError (with the statement list
already mutated; the model returns only the error). -/
def Program.remove_statement (p : Program) (index : Int) : Except PyErr Program :=
  if p._statements = [] then .error .removeStatementError
  else if index < 0 ∨ (p._statements.length : Int) - 1 < index then
    .error .invalidStatementIndexError
  else
    match p._statements.get? index.toNat with
    | none => .error .invalidStatementIndexError
    | some stmt_to_remove =>
      if p._statements.any (fun s => pyContains s.args (rvKey stmt_to_remove)) then
        .error .removeStatementError
      else
        match stmt_to_remove.result_var_name with
        | some v =>
          if v ∈ p._variables then
            .ok { p with
                  _statements := removeFirstStmtEq p._statements stmt_to_remove
                  _variables := eraseFirstStr p._variables v }
          else .error .valueError
        | none => .error .valueError

/-- Program._add_return_statement_if_not_contained (program_model.py lines
239-245).  The source passes the two positional arguments swapped relative to
Statement.__init__(args, func): Statement("return", return_vars) builds a
statement whose args is the string "return" and whose func is the list of
return variables; the statement is appended directly to the statement list,
so has_return_statement is never set to True here. -/
def Program._add_return_statement_if_not_contained (p : Program) : Program :=
  if p.has_return_statement then p
  else
    let return_vars := pySliceFrom p._variables (-(p.reutrn_vars_count))
    let return_stmt : Statement :=
      { result_var_name := none
        args := .atom (.astr "return")
        func := .plist (return_vars.map PyAtom.astr) }
    { p with _statements := p._statements ++ [return_stmt] }

/-- Program.generate_code (program_model.py lines 130-142).  The Python
method mutates self via _add_return_statement_if_not_contained and returns
the text; the model returns the text together with the mutated program. -/
def Program.generate_code (p : Program) : String × Program :=
  let p := p._add_return_statement_if_not_contained
  let header :=
    "def " ++ p.program_name ++
      (if p.program_arg_names ≠ [] then
        "(" ++ joinSep ", " p.program_arg_names ++ "):\n"
      else "():\n")
  (p._statements.foldl (fun acc s => acc ++ "   " ++ s.to_code ++ "\n") header, p)

/-- Program.copy (program_model.py lines 222-227): builds a fresh Program
with the default return_vars_count = 1 and has_return_statement = False,
then carries over statements, variables and the variable-name counter
(deepcopy is the identity on the modelled immutable values). -/
def Program.copy (p : Program) : Program :=
  { program_name := p.program_name
    program_arg_names := p.program_arg_names
    reutrn_vars_count := 1
    _variables := p._variables
    _statements := p._statements
    last_variable_index := p.last_variable_index
    has_return_statement := false }

/-- The canonicalization dictionary of Program.to_hash: keys are the Python
objects used as dict keys (parameter names, argument atoms, result variable
names or None), values are canonical names.  A later insertion shadows an
earlier binding, matching dict assignment. -/
abbrev CanonMap := List (PyAtom × String)

/-- Dictionary lookup (latest binding wins). -/
def clookup : CanonMap → PyAtom → Option String
  | [], _ => none
  | (k, v) :: rest, a => if a = k then some v else clookup rest a

/-- Dictionary assignment. -/
def cinsert (m : CanonMap) (k : PyAtom) (v : String) : CanonMap := (k, v) :: m

/-- The seeding loop of to_hash (program_model.py lines 199-200): parameter i
maps to in&lt;i&gt;. -/
def seedParamsAux : Nat → List String → CanonMap → CanonMap
  | _, [], m => m
  | i, a :: rest, m => seedParamsAux (i + 1) rest (cinsert m (.astr a) ("in" ++ toString i))

def seedParams (names : List String) : CanonMap := seedParamsAux 0 names []

/-- The canonicalization of one argument list (program_model.py lines
205-210): a first-seen argument is assigned the next canonical name
v&lt;counter&gt;. -/
def canonArgs : CanonMap → Nat → List PyAtom → CanonMap × Nat × List String
  | m, c, [] => (m, c, [])
  | m, c, a :: rest =>
    match clookup m a with
    | some v =>
      let r := canonArgs m c rest
      (r.1, r.2.1, v :: r.2.2)
    | none =>
      let v := "v" ++ toString c
      let r := canonArgs (cinsert m a v) (c + 1) rest
      (r.1, r.2.1, v :: r.2.2)

/-- The canonicalization of a result variable (program_model.py lines
212-215). -/
def canonResult (m : CanonMap) (c : Nat) (a : PyAtom) : CanonMap × Nat × String :=
  match clookup m a with
  | some v => (m, c, v)
  | none => (cinsert m a ("v" ++ toString c), c + 1, "v" ++ toString c)

/-- The statement walk of to_hash (program_model.py lines 204-217),
accumulating (func, canonical argument tuple, canonical result) triples. -/
def toHashAux : CanonMap → Nat → List Statement → List (PyVal × List String × String)
  | _, _, [] => []
  | m, c, s :: rest =>
    let ra := canonArgs m c (pyIterate s.args)
    let rr := canonResult ra.1 ra.2.1 (rvKey s)
    (s.func, ra.2.2, rr.2.2) :: toHashAux rr.1 rr.2.1 rest

/-- Program.to_hash (program_model.py lines 195-220), modelled up to the
canonical representation: the sha256 digest is a deterministic function of
str(canonical_repr), so equal canonical representations give equal digests. -/
def Program.to_hash (p : Program) : List (PyVal × List String × String) :=
  toHashAux (seedParams p.program_arg_names) 0 p._statements

/-- UpdateStatementArgsMutationStrategy.mutate (mutation_strategy.py lines
191-201).  statement_idx models the draw random.randrange(len(program)) and
sampled_args models random.choices(program.variables,
k=len(statement.args)): a list of names drawn from the variables of the
program, with no exclusion of any kind.  Setting statement.args on the
retrieved statement object updates the statement stored at that position.
(The variables and get_statement accessors used by the strategy are the
_variables and _statements attributes of Program; the accessor methods
themselves are absent from program_model.py and are modelled from the spec.) -/
def UpdateStatementArgsMutationStrategy.mutate (statement_idx : Nat)
    (sampled_args : List String) (program : Program) : Program :=
  if program._statements.length = 0 then program
  else
    { program with
      _statements := listModifyAt program._statements statement_idx
        (fun s => { s with args := .plist (sampled_args.map PyAtom.astr) }) }

/-- InsertStatement.mutate (mutation_strategy.py lines 204-215).  The body in
the source is a verbatim duplicate of
UpdateStatementArgsMutationStrategy.mutate: it resamples the arguments of an
existing statement and never builds or inserts a new statement.  The class
has no available-functions table at all.  Parameters model the RNG draws as
for UpdateStatementArgsMutationStrategy.mutate. -/
def InsertStatement.mutate (statement_idx : Nat)
    (sampled_args : List String) (program : Program) : Program :=
  if program._statements.length = 0 then program
  else
    { program with
      _statements := listModifyAt program._statements statement_idx
        (fun s => { s with args := .plist (sampled_args.map PyAtom.astr) }) }

/-- Fitness lookup in the fitness dictionary, keyed by program (the Python
dict is keyed by object identity; programs in a population are distinct
objects, modelled by distinct values). -/
def dlookup : List (Program × ℚ) → Program → Option ℚ
  | [], _ => none
  | (k, v) :: rest, p => if p = k then some v else dlookup rest p

/-- dict.pop: remove the entry of the given key (the caller checks presence;
Python raises KeyError when the key is absent). -/
def dpop : List (Program × ℚ) → Program → List (Program × ℚ)
  | [], _ => []
  | (k, v) :: rest, p => if p = k then rest else (k, v) :: dpop rest p

/-- Python max(iterable, key=...): the first element with maximal key
(a later element replaces the current best only when strictly greater). -/
def pymaxByFitness (key : Program → ℚ) : List Program → Option Program
  | [] => none
  | x :: xs => some (xs.foldl (fun b q => if key b < key q then q else b) x)

/-- TournamentSelectionOperator.apply, the revision at mutation_strategy.py
lines 39-59: picks the maximum-fitness member of the drawn tournament, copies
it, pops the oldest population member and its fitness entry, mutates the copy
in place with the chosen strategy and appends the copy at the tail.
tournament models random.choices(population, k=tournament_size) and mutate
models the strategy drawn by random.choices over the configured weights.
The fitness key uses getD 0 where Python would raise KeyError on a missing
entry; the verified statements assume the entries are present.  An empty
tournament makes max raise ValueError; an empty population makes popleft
raise IndexError; a missing fitness entry for the popped head makes dict.pop
raise KeyError. -/
def TournamentSelectionOperator.apply (tournament : List Program)
    (mutate : Program → Program) (population : List Program)
    (fitnesses : List (Program × ℚ)) :
    Except PyErr (List Program × List (Program × ℚ)) :=
  match pymaxByFitness (fun q => (dlookup fitnesses q).getD 0) tournament with
  | none => .error .valueError
  | some best_program =>
    let tournament_winner := best_program.copy
    match population with
    | [] => .error .indexError
    | program :: rest =>
      if (dlookup fitnesses program).isSome then
        .ok (rest ++ [mutate tournament_winner], dpop fitnesses program)
      else .error .keyError

/-- The weight-map condition rejected by the validators: the values do not
sum to 1 within 1e-6, or some value is below 0 or above 1. -/
def invalidWeights (weights : List ℚ) : Prop :=
  |weights.sum - 1| > 1 / 1000000 ∨ (∃ v ∈ weights, v < 0) ∨ (∃ v ∈ weights, v > 1)

instance (weights : List ℚ) : Decidable (invalidWeights weights) := by
  unfold invalidWeights; infer_instance

/-- TournamentSelectionOperator._validate_mutation_strategies
(evolution_operator.py lines 67-81).  The float weights of the source are
modelled as rationals; 1e-6 is 1/1000000. -/
def TournamentSelectionOperator.validate_mutation_strategies
    (weights : List ℚ) : Except PyErr Unit :=
  if |weights.sum - 1| > 1 / 1000000 then .error .invalidMutationStrategiesError
  else if ∃ v ∈ weights, v < 0 then .error .invalidMutationStrategiesError
  else if ∃ v ∈ weights, v > 1 then .error .invalidMutationStrategiesError
  else .ok ()

/-- The state held by a constructed TournamentSelectionOperator
(evolution_operator.py lines 43-49): the tournament size and the weight
values of the mutation-strategies dictionary. -/
structure TournamentSelectionOperatorState where
  tournament_size : Int
  mutation_strategy_weights : List ℚ
deriving DecidableEq

/-- TournamentSelectionOperator.__init__ (evolution_operator.py lines 43-49):
stores the arguments and validates the weights immediately. -/
def TournamentSelectionOperator.construct (tournament_size : Int)
    (weights : List ℚ) : Except PyErr TournamentSelectionOperatorState :=
  match TournamentSelectionOperator.validate_mutation_strategies weights with
  | .error e => .error e
  | .ok _ => .ok ⟨tournament_size, weights⟩

/-- The constructor arguments of ProgramSearch that take part in
_validate_arguments (program_search.py lines 21-82). -/
structure ProgramSearchArgs where
  min_program_statements : Int
  max_program_statements : Int
  pop_size : Int
  tournament_size : Int
  replace_arg_for_const_prob : ℚ
  mutation_strategy_weights : List ℚ
deriving DecidableEq

/-- ProgramSearch._validate_arguments (program_search.py lines 141-181), with
the checks in source order.  Floats are modelled as rationals. -/
def ProgramSearch._validate_arguments (a : ProgramSearchArgs) : Except PyErr Unit :=
  if a.max_program_statements < a.min_program_statements then
    .error .invalidProgramSearchArgumentValueError
  else if a.pop_size < 0 then .error .invalidProgramSearchArgumentValueError
  else if a.tournament_size < 0 then .error .invalidProgramSearchArgumentValueError
  else if a.pop_size < a.tournament_size then .error .invalidProgramSearchArgumentValueError
  else if a.replace_arg_for_const_prob < 0 ∨ 1 < a.replace_arg_for_const_prob then
    .error .invalidProgramSearchArgumentValueError
  else if |a.mutation_strategy_weights.sum - 1| > 1 / 1000000 then
    .error .invalidProgramSearchArgumentValueError
  else if ∃ v ∈ a.mutation_strategy_weights, v < 0 then
    .error .invalidProgramSearchArgumentValueError
  else if ∃ v ∈ a.mutation_strategy_weights, v > 1 then
    .error .invalidProgramSearchArgumentValueError
  else .ok ()

/-- ProgramSearch.__init__ (program_search.py lines 21-82): stores the
arguments and runs _validate_arguments as its last step. -/
def ProgramSearch.construct (a : ProgramSearchArgs) : Except PyErr ProgramSearchArgs :=
  match ProgramSearch._validate_arguments a with
  | .error e => .error e
  | .ok _ => .ok a

/-- The constructor arguments of ProgramSearch other than the weight map are
valid: these are the conditions checked before the weight checks in
_validate_arguments. -/
def ProgramSearchArgs.otherArgsValid (a : ProgramSearchArgs) : Prop :=
  a.min_program_statements ≤ a.max_program_statements ∧ 0 ≤ a.pop_size ∧
    0 ≤ a.tournament_size ∧ a.tournament_size ≤ a.pop_size ∧
    0 ≤ a.replace_arg_for_const_prob ∧ a.replace_arg_for_const_prob ≤ 1

instance (a : ProgramSearchArgs) : Decidable a.otherArgsValid := by
  unfold ProgramSearchArgs.otherArgsValid; infer_instance

/-- A renaming of atoms: an injection on variable/constant strings and an
injection on numeric literals; None is fixed. -/
def renameAtom (vr : String → String) (nr : Int → Int) : PyAtom → PyAtom
  | .astr s => .astr (vr s)
  | .anum n => .anum (nr n)
  | .anone => .anone

/-- The renaming lifted to values. -/
def renameVal (vr : String → String) (nr : Int → Int) : PyVal → PyVal
  | .atom a => .atom (renameAtom vr nr a)
  | .plist l => .plist (l.map (renameAtom vr nr))

/-- The renaming lifted to statements: arguments and the result variable are
renamed, the function and the statement order are untouched. -/
def renameStmt (vr : String → String) (nr : Int → Int) (s : Statement) : Statement :=
  { result_var_name := s.result_var_name.map vr
    args := renameVal vr nr s.args
    func := s.func }

/-- The renaming lifted to programs: parameter names, statement arguments and
result variables are renamed; functions, statement order and every other
field are untouched. -/
def renameProgram (vr : String → String) (nr : Int → Int) (p : Program) : Program :=
  { p with
    program_arg_names := p.program_arg_names.map vr
    _variables := p._variables.map vr
    _statements := p._statements.map (renameStmt vr nr) }

/-- Whether a value is a list. -/
def isPlist : PyVal → Bool
  | .plist _ => true
  | .atom _ => false

/-- Each statement of the program carries a list-valued argument tuple (the
shape produced by every statement constructed in the source except the
malformed auto-return of generate_code). -/
def argsAreLists (p : Program) : Prop :=
  ∀ s ∈ p._statements, isPlist s.args = true

instance (p : Program) : Decidable (argsAreLists p) := by
  unfold argsAreLists; infer_instance

theorem listModifyAt_length (l : List α) (n : Nat) (f : α → α) :
    (listModifyAt l n f).length = l.length := by
  induction l generalizing n with
  | nil => rfl
  | cons a t ih =>
    cases n with
    | zero => rfl
    | succ n => simpa [listModifyAt] using ih n

theorem listModifyAt_get_eq (l : List α) (n : Nat) (f : α → α) :
    (listModifyAt l n f).get? n = (l.get? n).map f := by
  induction l generalizing n with
  | nil => cases n <;> rfl
  | cons a t ih =>
    cases n with
    | zero => rfl
    | succ n => simpa [listModifyAt] using ih n

theorem listModifyAt_get_ne (l : List α) (n m : Nat) (f : α → α) (h : m ≠ n) :
    (listModifyAt l n f).get? m = l.get? m := by
  induction l generalizing n m with
  | nil => rfl
  | cons a t ih =>
    cases n with
    | zero =>
      cases m with
      | zero => exact absurd rfl h
      | succ m => rfl
    | succ n =>
      cases m with
      | zero => rfl
      | succ m => simpa [listModifyAt] using ih n m (fun hc => h (by omega))

theorem listInsertAt_length (l : List α) (n : Nat) (x : α) :
    (listInsertAt l n x).length = l.length + 1 := by
  induction l generalizing n with
  | nil => cases n <;> rfl
  | cons a t ih =>
    cases n with
    | zero => rfl
    | succ n => simpa [listInsertAt] using ih n

theorem mem_listInsertAt (l : List α) (n : Nat) (x : α) :
    x ∈ listInsertAt l n x := by
  induction l generalizing n with
  | nil => cases n <;> simp [listInsertAt]
  | cons a t ih =>
    cases n with
    | zero => simp [listInsertAt]
    | succ n => simp [listInsertAt, ih n]

theorem foldl_pick_mem (key : Program → ℚ) (xs : List Program) (x : Program) :
    xs.foldl (fun b q => if key b < key q then q else b) x ∈ x :: xs := by
  induction xs generalizing x with
  | nil => simp
  | cons a t ih =>
    simp only [List.foldl_cons]
    rcases List.mem_cons.mp (ih (if key x < key a then a else x)) with h | h
    · rw [h]
      by_cases hc : key x < key a <;> simp [hc]
    · simp [List.mem_cons.mpr (Or.inr h)]

theorem foldl_pick_start_le (key : Program → ℚ) (xs : List Program) (x : Program) :
    key x ≤ key (xs.foldl (fun b q => if key b < key q then q else b) x) := by
  induction xs generalizing x with
  | nil => simp
  | cons a t ih =>
    simp only [List.foldl_cons]
    refine le_trans ?_ (ih (if key x < key a then a else x))
    by_cases hc : key x < key a
    · simp only [if_pos hc]; exact le_of_lt hc
    · simp [hc]

theorem foldl_pick_ge (key : Program → ℚ) (xs : List Program) (x : Program)
    (q : Program) (hq : q ∈ x :: xs) :
    key q ≤ key (xs.foldl (fun b q => if key b < key q then q else b) x) := by
  induction xs generalizing x q with
  | nil =>
    simp only [List.mem_singleton] at hq
    subst hq; simp
  | cons a t ih =>
    simp only [List.foldl_cons]
    have hx : key x ≤ key (if key x < key a then a else x) := by
      by_cases hc : key x < key a
      · simp only [if_pos hc]; exact le_of_lt hc
      · simp [hc]
    have ha : key a ≤ key (if key x < key a then a else x) := by
      by_cases hc : key x < key a
      · simp [hc]
      · simp only [if_neg hc]; exact le_of_not_lt hc
    rcases List.mem_cons.mp hq with h | h
    · subst h
      exact hx.trans (foldl_pick_start_le key t _)
    · rcases List.mem_cons.mp h with h2 | h2
      · subst h2
        exact ha.trans (foldl_pick_start_le key t _)
      · exact ih _ q (List.mem_cons.mpr (Or.inr h2))

theorem renameAtom_injective (vr : String → String) (nr : Int → Int)
    (hvr : Function.Injective vr) (hnr : Function.Injective nr) :
    Function.Injective (renameAtom vr nr) := by
  intro a b h
  cases a <;> cases b <;> simp_all [renameAtom]
  · exact hvr h
  · exact hnr h

/-- The renaming applied to the keys of a canonicalization dictionary. -/
def renameMap (rho : PyAtom → PyAtom) (m : CanonMap) : CanonMap :=
  m.map (fun kv => (rho kv.1, kv.2))

theorem clookup_renameMap (rho : PyAtom → PyAtom) (hrho : Function.Injective rho)
    (m : CanonMap) (a : PyAtom) :
    clookup (renameMap rho m) (rho a) = clookup m a := by
  induction m with
  | nil => rfl
  | cons kv rest ih =>
    obtain ⟨k, v⟩ := kv
    simp only [renameMap, List.map_cons, clookup]
    by_cases hek : a = k
    · subst hek; simp
    · have hne : ¬ (rho a = rho k) := fun hc => hek (hrho hc)
      simp only [if_neg hne, if_neg hek]
      exact ih

theorem canonArgs_renameMap (rho : PyAtom → PyAtom) (hrho : Function.Injective rho)
    (l : List PyAtom) : ∀ (m : CanonMap) (c : Nat),
    canonArgs (renameMap rho m) c (l.map rho) =
      (renameMap rho (canonArgs m c l).1, (canonArgs m c l).2.1, (canonArgs m c l).2.2) := by
  induction l with
  | nil => intro m c; rfl
  | cons a rest ih =>
    intro m c
    simp only [List.map_cons, canonArgs, clookup_renameMap rho hrho]
    cases h : clookup m a with
    | some v => simp [h, ih]
    | none =>
      have hci : cinsert (renameMap rho m) (rho a) ("v" ++ toString c) =
          renameMap rho (cinsert m a ("v" ++ toString c)) := rfl
      simp [h, hci, ih]

theorem canonResult_renameMap (rho : PyAtom → PyAtom) (hrho : Function.Injective rho)
    (m : CanonMap) (c : Nat) (a : PyAtom) :
    canonResult (renameMap rho m) c (rho a) =
      (renameMap rho (canonResult m c a).1, (canonResult m c a).2.1, (canonResult m c a).2.2) := by
  unfold canonResult
  rw [clookup_renameMap rho hrho]
  cases h : clookup m a with
  | some v => simp [h]
  | none => simp [h]; rfl

theorem rvKey_renameStmt (vr : String → String) (nr : Int → Int) (s : Statement) :
    rvKey (renameStmt vr nr s) = renameAtom vr nr (rvKey s) := by
  cases h : s.result_var_name <;> simp [rvKey, renameStmt, h, renameAtom]

theorem toHashAux_renameMap (vr : String → String) (nr : Int → Int)
    (hrho : Function.Injective (renameAtom vr nr)) (stmts : List Statement) :
    ∀ (m : CanonMap) (c : Nat), (∀ s ∈ stmts, isPlist s.args = true) →
    toHashAux (renameMap (renameAtom vr nr) m) c (stmts.map (renameStmt vr nr)) =
      toHashAux m c stmts := by
  induction stmts with
  | nil => intro m c _; rfl
  | cons s rest ih =>
    intro m c hargs
    obtain ⟨l, hl⟩ : ∃ l, s.args = PyVal.plist l := by
      have hs := hargs s (List.mem_cons_self _ _)
      cases harg : s.args with
      | atom a => rw [harg] at hs; simp [isPlist] at hs
      | plist l => exact ⟨l, rfl⟩
    have hiter : pyIterate (renameStmt vr nr s).args = l.map (renameAtom vr nr) := by
      simp [renameStmt, hl, renameVal, pyIterate]
    have hiter2 : pyIterate s.args = l := by simp [hl, pyIterate]
    simp only [List.map_cons, toHashAux, hiter, hiter2, rvKey_renameStmt,
      canonArgs_renameMap _ hrho, canonResult_renameMap _ hrho]
    have hfunc : (renameStmt vr nr s).func = s.func := rfl
    rw [hfunc, ih _ _ (fun t ht => hargs t (List.mem_cons.mpr (Or.inr ht)))]

theorem seedParamsAux_map (vr : String → String) (nr : Int → Int)
    (names : List String) : ∀ (i : Nat) (m : CanonMap),
    seedParamsAux i (names.map vr) (renameMap (renameAtom vr nr) m) =
      renameMap (renameAtom vr nr) (seedParamsAux i names m) := by
  induction names with
  | nil => intro i m; rfl
  | cons a rest ih =>
    intro i m
    simp only [List.map_cons, seedParamsAux]
    have hci : cinsert (renameMap (renameAtom vr nr) m) (.astr (vr a)) ("in" ++ toString i) =
        renameMap (renameAtom vr nr) (cinsert m (.astr a) ("in" ++ toString i)) := rfl
    rw [hci, ih]

/-- Injective renaming of variables and numeric literals leaves the canonical
representation computed by to_hash unchanged. -/
theorem to_hash_renameProgram (vr : String → String) (nr : Int → Int)
    (hvr : Function.Injective vr) (hnr : Function.Injective nr)
    (p : Program) (hargs : argsAreLists p) :
    (renameProgram vr nr p).to_hash = p.to_hash := by
  have hrho := renameAtom_injective vr nr hvr hnr
  show toHashAux (seedParams (p.program_arg_names.map vr)) 0
      (p._statements.map (renameStmt vr nr)) = toHashAux (seedParams p.program_arg_names) 0 p._statements
  have hseed : seedParams (p.program_arg_names.map vr) =
      renameMap (renameAtom vr nr) (seedParams p.program_arg_names) := by
    have := seedParamsAux_map vr nr p.program_arg_names 0 []
    simpa [seedParams, renameMap] using this
  rw [hseed, toHashAux_renameMap vr nr hrho p._statements _ 0 hargs]

/-- The program def f(a) with the single statement x1 = neg(a), built through
Program.init and insert_statement. -/
def Pneg : Program :=
  (Program.init "f" ["a"]).insert_statement
    { result_var_name := none, args := .plist [.astr "a"], func := .atom (.astr "neg") }

/-- The statement of Pneg as stored after insertion (result variable x1). -/
def PnegStmt : Statement :=
  { result_var_name := some "x1", args := .plist [.astr "a"], func := .atom (.astr "neg") }

/-- Pneg extended with a return statement returning x1. -/
def PnegRet : Program :=
  Pneg.insert_statement
    { result_var_name := none, args := .plist [.astr "x1"], func := .atom (.astr "return") }

/-- The program def f() with the single statement x1 = const(12). -/
def PconstA : Program :=
  (Program.init "f" []).insert_statement
    { result_var_name := none, args := .plist [.anum 12], func := .atom (.astr "const") }

/-- Identical to PconstA except for the value of the literal constant. -/
def PconstB : Program :=
  (Program.init "f" []).insert_statement
    { result_var_name := none, args := .plist [.anum 13], func := .atom (.astr "const") }

/-- The program def f(a, b) with the same statement add(a, b) inserted twice,
producing result variables x1 and x2. -/
def PdupC6 : Program :=
  ((Program.init "f" ["a", "b"]).insert_statement
      { result_var_name := none, args := .plist [.astr "a", .astr "b"],
        func := .atom (.astr "add") }).insert_statement
    { result_var_name := none, args := .plist [.astr "a", .astr "b"],
      func := .atom (.astr "add") }

/-- A program whose only statement references its own result variable,
x1 = neg(x1): this state is reachable from Pneg through
update_statment_args(0, [x1]) (program_model.py lines 118-128), which only
checks the argument count. -/
def PselfC6 : Program :=
  { program_name := "f", program_arg_names := ["a"], reutrn_vars_count := 1,
    _variables := ["a", "x1"],
    _statements := [{ result_var_name := some "x1", args := .plist [.astr "x1"],
                      func := .atom (.astr "neg") }],
    last_variable_index := 2, has_return_statement := false }

/-- A population member used in the tournament-selection witness. -/
def ProgA : Program := Program.init "pa" ["a"]

/-- A second, distinct population member. -/
def ProgB : Program := Program.init "pb" ["a"]

theorem validate_mutation_strategies_error_iff (weights : List ℚ) :
    TournamentSelectionOperator.validate_mutation_strategies weights =
      .error .invalidMutationStrategiesError ↔ invalidWeights weights := by
  unfold TournamentSelectionOperator.validate_mutation_strategies invalidWeights
  split_ifs with w1 w2 w3 <;> simp_all

theorem validate_mutation_strategies_ok_iff (weights : List ℚ) :
    TournamentSelectionOperator.validate_mutation_strategies weights = .ok () ↔
      ¬ invalidWeights weights := by
  unfold TournamentSelectionOperator.validate_mutation_strategies invalidWeights
  split_ifs with w1 w2 w3 <;> simp_all

theorem validate_arguments_spec (a : ProgramSearchArgs) (ha : a.otherArgsValid) :
    (ProgramSearch._validate_arguments a = .error .invalidProgramSearchArgumentValueError ↔
      invalidWeights a.mutation_strategy_weights) ∧
    (ProgramSearch._validate_arguments a = .ok () ↔
      ¬ invalidWeights a.mutation_strategy_weights) := by
  obtain ⟨h1, h2, h3, h4, h5, h6⟩ := ha
  unfold ProgramSearch._validate_arguments invalidWeights
  rw [if_neg (not_lt.mpr h1), if_neg (not_lt.mpr h2), if_neg (not_lt.mpr h3),
    if_neg (not_lt.mpr h4),
    if_neg (show ¬ (a.replace_arg_for_const_prob < 0 ∨ 1 < a.replace_arg_for_const_prob) by
      push_neg; exact ⟨h5, h6⟩)]
  split_ifs with w1 w2 w3 <;> simp_all

/-- C1: the Insert mutation strategy never inserts a statement.  Its body in
the source is a verbatim duplicate of UpdateStatementArgsMutationStrategy:
for every program and every RNG draw the statement count is unchanged (the
claim requires it to increase by exactly one on the nonempty program Pneg,
which has one statement). -/
theorem C1_insert_statement_strategy_never_inserts :
    (∀ (idx : Nat) (sample : List String) (p : Program),
      (InsertStatement.mutate idx sample p)._statements.length =
        p._statements.length) ∧
    Pneg._statements.length = 1 ∧
    ((InsertStatement.mutate 0 ["a"] Pneg)._statements.map fun s => s.args) =
      [.plist [.astr "a"]] := by
  refine ⟨?_, by decide, by decide⟩
  intro idx sample p
  unfold InsertStatement.mutate
  by_cases h : p._statements.length = 0 <;> simp [h, listModifyAt_length]

/-- C2: one application of the tournament-selection operator (the revision at
mutation_strategy.py lines 39-59) on a nonempty population pops the oldest
member together with its cached fitness entry, applies the chosen mutation
strategy to a copy of the tournament winner (a maximum-fitness member of the
drawn tournament; the winner itself stays in the population unchanged) and
appends the mutated copy at the tail, preserving the population size. -/
theorem C2_tournament_selection_apply_spec (h : Program) (rest : List Program)
    (fitnesses : List (Program × ℚ)) (tournament : List Program)
    (mutate : Program → Program)
    (htour : tournament ≠ [])
    (hmem : ∀ q ∈ tournament, q ∈ h :: rest)
    (hfit : (dlookup fitnesses h).isSome) :
    ∃ best,
      pymaxByFitness (fun q => (dlookup fitnesses q).getD 0) tournament = some best ∧
      best ∈ tournament ∧
      (∀ q ∈ tournament,
        (dlookup fitnesses q).getD 0 ≤ (dlookup fitnesses best).getD 0) ∧
      TournamentSelectionOperator.apply tournament mutate (h :: rest) fitnesses =
        .ok (rest ++ [mutate best.copy], dpop fitnesses h) ∧
      (rest ++ [mutate best.copy]).length = (h :: rest).length := by
  obtain ⟨t, ts, rfl⟩ : ∃ t ts, tournament = t :: ts := by
    cases tournament with
    | nil => exact absurd rfl htour
    | cons t ts => exact ⟨t, ts, rfl⟩
  refine ⟨ts.foldl
      (fun b q => if (dlookup fitnesses b).getD 0 < (dlookup fitnesses q).getD 0 then q else b) t,
    rfl, foldl_pick_mem (fun q => (dlookup fitnesses q).getD 0) ts t,
    fun q hq => foldl_pick_ge (fun q => (dlookup fitnesses q).getD 0) ts t q hq, ?_, by simp⟩
  unfold TournamentSelectionOperator.apply
  simp only [pymaxByFitness]
  rw [if_pos hfit]

/-- C2 witness: a concrete two-member population with tournament [ProgB] and
the identity as the chosen mutation. -/
theorem C2_tournament_selection_apply_witness :
    ∃ best,
      pymaxByFitness (fun q => (dlookup [(ProgA, (1 : ℚ)), (ProgB, 2)] q).getD 0)
        [ProgB] = some best ∧
      best ∈ [ProgB] ∧
      (∀ q ∈ [ProgB],
        (dlookup [(ProgA, (1 : ℚ)), (ProgB, 2)] q).getD 0 ≤
          (dlookup [(ProgA, (1 : ℚ)), (ProgB, 2)] best).getD 0) ∧
      TournamentSelectionOperator.apply [ProgB] (fun p => p) (ProgA :: [ProgB])
          [(ProgA, (1 : ℚ)), (ProgB, 2)] =
        .ok ([ProgB] ++ [(fun p => p) best.copy],
          dpop [(ProgA, (1 : ℚ)), (ProgB, 2)] ProgA) ∧
      ([ProgB] ++ [(fun p => p) best.copy]).length = (ProgA :: [ProgB]).length :=
  C2_tournament_selection_apply_spec ProgA [ProgB] [(ProgA, 1), (ProgB, 2)]
    [ProgB] (fun p => p) (by decide) (by decide) (by decide)

/-- C3: to_hash is invariant under injective renaming of the variable names
(parameter names, argument atoms and result variables) with identical
statement order, functions and argument structure, so two programs that are
variable renamings of each other produce identical canonical hashes. -/
theorem C3_to_hash_renaming_invariant (vr : String → String)
    (hvr : Function.Injective vr) (p : Program) (hargs : argsAreLists p) :
    (renameProgram vr (fun n => n) p).to_hash = p.to_hash :=
  to_hash_renameProgram vr (fun n => n) hvr (fun a b hab => hab) p hargs

/-- C3 witness at the identity renaming on the two-statement program
PnegRet. -/
theorem C3_to_hash_renaming_witness :
    (renameProgram (fun s => s) (fun n => n) PnegRet).to_hash = PnegRet.to_hash :=
  C3_to_hash_renaming_invariant (fun s => s) (fun a b hab => hab) PnegRet (by decide)

/-- C4 counterexample: in to_hash the literal constant argument 12 of the
const statement of PconstA is canonicalized to the fresh canonical name v0,
not kept as itself, and the program PconstB that differs from PconstA only in
that literal constant (13 instead of 12) produces the identical canonical
representation, hence the identical digest. -/
theorem C4_constants_are_renamed_counterexample :
    PconstA.to_hash = [(.atom (.astr "const"), ["v0"], "v1")] ∧
    PconstA.to_hash = PconstB.to_hash := by
  decide

/-- C4 amended: literal constant arguments are canonicalized like any other
first-seen undefined argument, being assigned the next canonical name
v&lt;counter&gt;; consequently replacing the numeric literals of a program
injectively (for example changing the value of one literal constant wherever
it occurs) leaves the canonical hash unchanged, so such a pair of programs
hashes identically rather than differently. -/
theorem C4_constant_replacement_preserves_hash (nr : Int → Int)
    (hnr : Function.Injective nr) (p : Program) (hargs : argsAreLists p) :
    (renameProgram (fun s => s) nr p).to_hash = p.to_hash :=
  to_hash_renameProgram (fun s => s) nr (fun a b hab => hab) hnr p hargs

/-- C4 witness: shifting every numeric literal by one on PconstA. -/
theorem C4_constant_replacement_witness :
    (renameProgram (fun s => s) (fun n => n + 1) PconstA).to_hash =
      PconstA.to_hash :=
  C4_constant_replacement_preserves_hash (fun n => n + 1)
    (fun a b hab => by simpa using hab) PconstA (by decide)

/-- C5: generate_code is not idempotent.  On the program Pneg the first call
appends the malformed auto-return statement (the Statement constructor is
called with its positional arguments swapped) without ever setting
has_return_statement, so the second call appends another one: the statement
count grows from 1 to 2 and then to 3, and the second text differs from the
first. -/
theorem C5_generate_code_not_idempotent :
    Pneg.generate_code.2._statements.length = 2 ∧
    Pneg.generate_code.2.has_return_statement = false ∧
    Pneg.generate_code.2.generate_code.2._statements.length = 3 ∧
    Pneg.generate_code.2.generate_code.1 ≠ Pneg.generate_code.1 := by
  decide

/-- C6 counterexample: removing from an empty program raises
RemoveStatementError (the dependency-error class), not the index error; on
PdupC6 (the same statement twice) remove(1) removes the statement at position
0 instead of position 1 (the survivor carries result variable x2 while the
variable removed from scope is x2); and on PselfC6, whose only statement
references its own result variable, remove(0) raises the dependency error
although no other statement references it. -/
theorem C6_remove_statement_counterexample :
    (Program.init "f" ["a"]).remove_statement 0 = .error .removeStatementError ∧
    (PdupC6.remove_statement 1).map
        (fun q => q._statements.map fun s => s.result_var_name) = .ok [some "x2"] ∧
    (PdupC6.remove_statement 1).map (fun q => q._variables) = .ok ["a", "b", "x1"] ∧
    PselfC6.remove_statement 0 = .error .removeStatementError := by
  decide

/-- C6 amended: remove_statement raises RemoveStatementError when the program
is empty; InvalidStatementIndexError when the index is outside [0, len-1];
RemoveStatementError when any statement (the target itself included)
references the result variable of the target, leaving the program unchanged;
and otherwise removes the first statement equal to the target by
(function, arguments) together with the result variable of the target. -/
theorem C6_remove_statement_behavior (p : Program) (i : Int) (tgt : Statement)
    (v : String) :
    (p._statements = [] → p.remove_statement i = .error .removeStatementError) ∧
    (p._statements ≠ [] → (i < 0 ∨ (p._statements.length : Int) - 1 < i) →
      p.remove_statement i = .error .invalidStatementIndexError) ∧
    (¬ (i < 0 ∨ (p._statements.length : Int) - 1 < i) →
      p._statements.get? i.toNat = some tgt →
      ((∃ s ∈ p._statements, pyContains s.args (rvKey tgt) = true) →
        p.remove_statement i = .error .removeStatementError) ∧
      ((∀ s ∈ p._statements, pyContains s.args (rvKey tgt) = false) →
        tgt.result_var_name = some v → v ∈ p._variables →
        p.remove_statement i =
          .ok { p with
                _statements := removeFirstStmtEq p._statements tgt,
                _variables := eraseFirstStr p._variables v })) := by
  refine ⟨?_, ?_, ?_⟩
  · intro hempty
    simp [Program.remove_statement, hempty]
  · intro hne hout
    simp [Program.remove_statement, hne, hout]
  · intro hin hget
    have hne : p._statements ≠ [] := by
      intro hnil
      rw [hnil] at hget
      simp at hget
    refine ⟨?_, ?_⟩
    · intro href
      have hany : p._statements.any (fun s => pyContains s.args (rvKey tgt)) = true :=
        List.any_eq_true.mpr href
      simp only [Program.remove_statement, if_neg hne, if_neg hin, hget]
      rw [if_pos hany]
    · intro hnoref hrv hvin
      have hnotany : ¬ (p._statements.any (fun s => pyContains s.args (rvKey tgt)) = true) := by
        rw [List.any_eq_true]
        rintro ⟨s, hs, hc⟩
        rw [hnoref s hs] at hc
        cases hc
      simp only [Program.remove_statement, if_neg hne, if_neg hin, hget]
      rw [if_neg hnotany]
      simp only [hrv]
      rw [if_pos hvin]

/-- C6 witness: removing the single unreferenced statement of Pneg. -/
theorem C6_remove_statement_witness :
    Pneg.remove_statement 0 =
      .ok { Pneg with
            _statements := removeFirstStmtEq Pneg._statements PnegStmt,
            _variables := eraseFirstStr Pneg._variables "x1" } :=
  ((C6_remove_statement_behavior Pneg 0 PnegStmt "x1").2.2 (by decide) (by decide)).2
    (by decide) (by decide) (by decide)

/-- C7 counterexample: for the non-return statement x1 = neg(a) of Pneg, the
candidate pool handed to random.choices is all of the program variables,
which contains the own result variable x1, and the sample [x1] is accepted:
the statement ends up with its own result variable as its argument, so no
exclusion takes place. -/
theorem C7_update_args_own_result_var_counterexample :
    "x1" ∈ Pneg._variables ∧
    (Pneg._statements.map fun s => s.func) = [.atom (.astr "neg")] ∧
    ((UpdateStatementArgsMutationStrategy.mutate 0 ["x1"] Pneg)._statements.map
        fun s => s.args) = [.plist [.astr "x1"]] := by
  decide

/-- C7 amended: for a nonempty program the UpdateArgs strategy, given the
drawn statement index (return statement eligible) and the argument sample
drawn from all currently defined variables (with no exclusion of the own
result variable), keeps the statement count and the variable list, replaces
the arguments of exactly the chosen statement by the sampled variables, and
leaves every other statement untouched. -/
theorem C7_update_args_behavior (p : Program) (idx : Nat) (sample : List String)
    (hidx : idx < p._statements.length)
    (hpool : ∀ a ∈ sample, a ∈ p._variables) :
    (UpdateStatementArgsMutationStrategy.mutate idx sample p)._statements.length =
      p._statements.length ∧
    (UpdateStatementArgsMutationStrategy.mutate idx sample p)._statements.get? idx =
      (p._statements.get? idx).map
        (fun s => { s with args := PyVal.plist (sample.map PyAtom.astr) }) ∧
    (∀ j, j ≠ idx →
      (UpdateStatementArgsMutationStrategy.mutate idx sample p)._statements.get? j =
        p._statements.get? j) ∧
    (UpdateStatementArgsMutationStrategy.mutate idx sample p)._variables =
      p._variables := by
  have hne : p._statements.length ≠ 0 := by omega
  unfold UpdateStatementArgsMutationStrategy.mutate
  rw [if_neg hne]
  exact ⟨listModifyAt_length _ _ _, listModifyAt_get_eq _ _ _,
    fun j hj => listModifyAt_get_ne _ _ _ _ hj, rfl⟩

/-- C7 witness: resampling the arguments of the statement of Pneg with the
sample [a]. -/
theorem C7_update_args_witness :
    (UpdateStatementArgsMutationStrategy.mutate 0 ["a"] Pneg)._statements.length =
      Pneg._statements.length ∧
    (UpdateStatementArgsMutationStrategy.mutate 0 ["a"] Pneg)._statements.get? 0 =
      (Pneg._statements.get? 0).map
        (fun s => { s with args := PyVal.plist (["a"].map PyAtom.astr) }) ∧
    (∀ j, j ≠ 0 →
      (UpdateStatementArgsMutationStrategy.mutate 0 ["a"] Pneg)._statements.get? j =
        Pneg._statements.get? j) ∧
    (UpdateStatementArgsMutationStrategy.mutate 0 ["a"] Pneg)._variables =
      Pneg._variables :=
  C7_update_args_behavior Pneg 0 ["a"] (by decide) (by decide)

/-- C8: the tournament-selection operator and the search engine validate the
mutation-strategy weight values at construction: construction fails with the
configuration error exactly when the values do not sum to 1 within 1e-6 or
some value lies outside [0, 1], and succeeds otherwise (for the search
engine, provided its other constructor arguments are valid). -/
theorem C8_weights_validation_spec (ts : Int) (weights : List ℚ)
    (a : ProgramSearchArgs) (ha : a.otherArgsValid) :
    (TournamentSelectionOperator.construct ts weights =
        .error .invalidMutationStrategiesError ↔ invalidWeights weights) ∧
    (TournamentSelectionOperator.construct ts weights = .ok ⟨ts, weights⟩ ↔
        ¬ invalidWeights weights) ∧
    (ProgramSearch.construct a = .error .invalidProgramSearchArgumentValueError ↔
        invalidWeights a.mutation_strategy_weights) ∧
    (ProgramSearch.construct a = .ok a ↔
        ¬ invalidWeights a.mutation_strategy_weights) := by
  have hv1 := validate_mutation_strategies_error_iff weights
  have hv2 := validate_mutation_strategies_ok_iff weights
  have hv3 := validate_arguments_spec a ha
  refine ⟨?_, ?_, ?_, ?_⟩
  · unfold TournamentSelectionOperator.construct
    cases hV : TournamentSelectionOperator.validate_mutation_strategies weights with
    | error e =>
      have he : e = .invalidMutationStrategiesError := by
        revert hV
        unfold TournamentSelectionOperator.validate_mutation_strategies
        split_ifs <;> intro hV <;> simp_all
      subst he
      simp [hv1.mp hV]
    | ok u =>
      rw [hV] at hv2
      simp_all
  · unfold TournamentSelectionOperator.construct
    cases hV : TournamentSelectionOperator.validate_mutation_strategies weights with
    | error e =>
      rw [hV] at hv1
      have he : e = .invalidMutationStrategiesError := by
        revert hV
        unfold TournamentSelectionOperator.validate_mutation_strategies
        split_ifs <;> intro hV <;> simp_all
      subst he
      simp_all
    | ok u =>
      rw [hV] at hv2
      simp_all
  · unfold ProgramSearch.construct
    cases hV : ProgramSearch._validate_arguments a with
    | error e =>
      have he : e = .invalidProgramSearchArgumentValueError := by
        revert hV
        unfold ProgramSearch._validate_arguments
        split_ifs <;> intro hV <;> simp_all
      subst he
      simp [hv3.1.mp hV]
    | ok u =>
      rw [show u = () from rfl] at hV
      rw [hV] at hv3
      simp_all
  · unfold ProgramSearch.construct
    cases hV : ProgramSearch._validate_arguments a with
    | error e =>
      have he : e = .invalidProgramSearchArgumentValueError := by
        revert hV
        unfold ProgramSearch._validate_arguments
        split_ifs <;> intro hV <;> simp_all
      subst he
      rw [hV] at hv3
      simp_all
    | ok u =>
      rw [show u = () from rfl] at hV
      rw [hV] at hv3
      simp_all

/-- The valid constructor-argument record used by the C8 witness. -/
def aC8 : ProgramSearchArgs :=
  { min_program_statements := 1, max_program_statements := 10, pop_size := 1000,
    tournament_size := 2, replace_arg_for_const_prob := 1 / 4,
    mutation_strategy_weights := [1 / 2, 1 / 2] }

/-- C8 witness: a weight map summing to one with values in [0, 1] makes both
constructions succeed. -/
theorem C8_weights_validation_witness :
    TournamentSelectionOperator.construct 2 [1 / 2, 1 / 2] =
      .ok ⟨2, [1 / 2, 1 / 2]⟩ ∧
    ProgramSearch.construct aC8 = .ok aC8 := by
  have hw : ¬ invalidWeights [1 / 2, 1 / 2] := by
    unfold invalidWeights
    norm_num
  have h := C8_weights_validation_spec 2 [1 / 2, 1 / 2] aC8
    (by unfold ProgramSearchArgs.otherArgsValid aC8; norm_num)
  exact ⟨h.2.1.mpr hw, h.2.2.2.mpr hw⟩

/-- C9 counterexample: inserting a return statement into the fresh program
def f(a) allocates the result variable x1, appends it to the variable list
(which therefore no longer equals the input parameters) and stores it on the
return statement. -/
theorem C9_return_insert_allocates_counterexample :
    ((Program.init "f" ["a"]).insert_statement
        { result_var_name := none, args := .plist [.astr "a"],
          func := .atom (.astr "return") })._variables = ["a", "x1"] ∧
    (Program.init "f" ["a"])._variables = ["a"] ∧
    (((Program.init "f" ["a"]).insert_statement
        { result_var_name := none, args := .plist [.astr "a"],
          func := .atom (.astr "return") })._statements.map
      fun s => s.result_var_name) = [some "x1"] := by
  decide

/-- C9 amended: insert_statement allocates the next variable name
x&lt;counter&gt; for every statement, return statements included, appends it
to the variable list, stores it as the result variable of the inserted
statement, increments the counter, and sets the return flag exactly when the
function is the return keyword. -/
theorem C9_insert_always_allocates (p : Program) (s : Statement) (i : Int) :
    (p.insert_statement s i)._variables =
      p._variables ++ ["x" ++ toString p.last_variable_index] ∧
    (p.insert_statement s i)._statements.length = p._statements.length + 1 ∧
    { s with result_var_name := some ("x" ++ toString p.last_variable_index) }
        ∈ (p.insert_statement s i)._statements ∧
    (p.insert_statement s i).last_variable_index = p.last_variable_index + 1 ∧
    (p.insert_statement s i).has_return_statement =
      (p.has_return_statement || decide (s.func = .atom (.astr "return"))) := by
  unfold Program.insert_statement
  by_cases hi : i = -1
  · simp [hi]
  · simp [hi, pyListInsert, listInsertAt_length, mem_listInsertAt]

/-- C10: Program.copy always resets has_return_statement to False and the
return-variable count to 1, regardless of the original, while carrying over
the name, parameter names, statements, variable list and the variable-name
counter. -/
theorem C10_copy_resets_return_state (p : Program) :
    p.copy.has_return_statement = false ∧ p.copy.reutrn_vars_count = 1 ∧
    p.copy.program_name = p.program_name ∧
    p.copy.program_arg_names = p.program_arg_names ∧
    p.copy._statements = p._statements ∧ p.copy._variables = p._variables ∧
    p.copy.last_variable_index = p.last_variable_index :=
  ⟨rfl, rfl, rfl, rfl, rfl, rfl, rfl⟩
